import Mathlib

/-!
Verification development for the Atom Identity & Registry Subsystem of the
`atomic-workflow-system` repository.

The definitions below are shallow embeddings of the Python source:

* `src/tools/atoms/id_utils.py` — identifier and key validation
  (`validate_ulid`, `validate_atom_key`, the two regexes) and key construction
  (`build_atom_key`).
* `src/tools/atoms/atom_validator.py` — the record validator (`validate_atom`).
* `src/tools/atoms/process2atoms.py` — the registry store
  (`read_registry_map`, `append_registry_entries`) and the lookup-or-assign
  fragment of `generate_yaml_and_registry` (lines 248 and 281).

Python regular-expression matching via `re.match(pattern, s)` with a pattern
of the form `^...$` succeeds iff the whole string matches, **or** the whole
string minus a single final newline matches: in Python, `$` (without
`re.MULTILINE`) matches at the end of the string or just before a newline at
the end of the string.  The embedding `pyMatchFull` reproduces exactly this.
-/

namespace AtomicWorkflow

/-- Character class `[0-9A-HJKMNP-TV-Z]` of `ULID_REGEX`
(`id_utils.py` line 11): the crockford base32 alphabet, digits and uppercase
letters excluding I, L, O, U. -/
def isCrockford (c : Char) : Bool :=
  (('0' ≤ c) && (c ≤ '9')) || (('A' ≤ c) && (c ≤ 'H')) || (c == 'J') || (c == 'K') ||
    (c == 'M') || (c == 'N') || (('P' ≤ c) && (c ≤ 'T')) || (('V' ≤ c) && (c ≤ 'Z'))

/-- The body of `ULID_REGEX` without the anchors: exactly 26 characters of
the crockford alphabet. -/
def ulidCore (cs : List Char) : Bool :=
  (cs.length == 26) && cs.all isCrockford

/-- If the character list ends in a newline, the list with that final newline
removed; otherwise `none`.  Used to model Python's `$` anchor. -/
def stripFinalNewline : List Char → Option (List Char) :=
  fun cs =>
    match cs.getLast? with
    | some c => if c = '\n' then some cs.dropLast else none
    | none => none

/-- Python `re.match` with an `^...$`-anchored pattern whose body is
recognised by `core`: the match succeeds on the whole string, or on the
string minus one final newline (Python `$` semantics). -/
def pyMatchFull (core : List Char → Bool) (s : String) : Bool :=
  core s.data ||
    (match stripFinalNewline s.data with
     | some ds => core ds
     | none => false)

/-- Embedding of `validate_ulid` (`id_utils.py` lines 24–34):
`bool(re.match(ULID_REGEX, uid))`. -/
def validate_ulid (uid : String) : Bool :=
  pyMatchFull ulidCore uid

/-- Character class `[a-z0-9-]` of `ATOM_KEY_REGEX` (`id_utils.py` line 10). -/
def isLowerAlnumDash (c : Char) : Bool :=
  (('a' ≤ c) && (c ≤ 'z')) || (('0' ≤ c) && (c ≤ '9')) || (c == '-')

/-- Character class `[0-9]` of `ATOM_KEY_REGEX`. -/
def isDigitCh (c : Char) : Bool :=
  ('0' ≤ c) && (c ≤ '9')

/-- One step of the key regex: consume `[a-z0-9-]+` followed by a literal
`/` and return the remainder.  Because `/` is not in the class, the regex
engine must consume the maximal run of class characters, which is what
`takeWhile`/`dropWhile` compute. -/
def chompSeg (cs : List Char) : Option (List Char) :=
  if cs.takeWhile isLowerAlnumDash = [] then none
  else
    match cs.dropWhile isLowerAlnumDash with
    | d :: rest => if d = '/' then some rest else none
    | [] => none

/-- The version segment of the key regex: consume the literal `v`, then
`[0-9]+` followed by a literal `/`, and return the remainder. -/
def chompVer (cs0 : List Char) : Option (List Char) :=
  match cs0 with
  | c :: cs =>
    if c = 'v' then
      if cs.takeWhile isDigitCh = [] then none
      else
        match cs.dropWhile isDigitCh with
        | d :: rest => if d = '/' then some rest else none
        | [] => none
    else none
  | [] => none

/-- The optional suffix part `(-[a-z0-9-]+)?(-r[0-9]+)?` of the final
segment.  Since `r` and the digits lie inside `[a-z0-9-]`, the full-match
language of the two optional groups together is: empty, or a dash followed
by a nonempty run of `[a-z0-9-]` characters. -/
def tailOkB : List Char → Bool
  | [] => true
  | c :: w => (c == '-') && (!w.isEmpty) && w.all isLowerAlnumDash

/-- The final segment of the key regex: `[0-9]{3}` followed by the optional
variant/revision suffixes. -/
def lastSegOkB : List Char → Bool
  | d1 :: d2 :: d3 :: rest => isDigitCh d1 && isDigitCh d2 && isDigitCh d3 && tailOkB rest
  | _ => false

/-- The body of `ATOM_KEY_REGEX` without the anchors
(`id_utils.py` line 10):
`[a-z0-9-]+/[a-z0-9-]+/v[0-9]+/[a-z0-9-]+/[a-z0-9-]+/[0-9]{3}(-[a-z0-9-]+)?(-r[0-9]+)?`. -/
def atomKeyCore (cs : List Char) : Bool :=
  match chompSeg cs with
  | none => false
  | some r1 =>
    match chompSeg r1 with
    | none => false
    | some r2 =>
      match chompVer r2 with
      | none => false
      | some r3 =>
        match chompSeg r3 with
        | none => false
        | some r4 =>
          match chompSeg r4 with
          | none => false
          | some r5 => lastSegOkB r5

/-- Embedding of `validate_atom_key` (`id_utils.py` lines 37–47):
`bool(re.match(ATOM_KEY_REGEX, key))`. -/
def validate_atom_key (key : String) : Bool :=
  pyMatchFull atomKeyCore key

/-- A nonempty run of `[a-z0-9-]` characters (a plain key segment). -/
def SegChars (l : List Char) : Prop :=
  l ≠ [] ∧ ∀ c ∈ l, isLowerAlnumDash c = true

/-- A nonempty run of decimal digits. -/
def DigitChars (l : List Char) : Prop :=
  l ≠ [] ∧ ∀ c ∈ l, isDigitCh c = true

/-- The grammar of the optional variant/revision suffixes after the
three-digit sequence: nothing, or a dash followed by a nonempty run of
`[a-z0-9-]` characters (which covers `-variant`, `-rN` and `-variant-rN`). -/
def TailOk (rest : List Char) : Prop :=
  rest = [] ∨ ∃ w, rest = '-' :: w ∧ w ≠ [] ∧ ∀ c ∈ w, isLowerAlnumDash c = true

/-- Modelled from the spec: the atom_key grammar of spec §3 — exactly six
slash-separated segments
`namespace/workflow/version/phase/lane/sequence[-variant][-revision]`,
with `namespace`, `workflow`, `phase`, `lane` nonempty over `[a-z0-9-]`,
`version` a literal `v` followed by digits, and `sequence` exactly three
digits. -/
def IsAtomKey (cs : List Char) : Prop :=
  ∃ ns wf ver ph lane rest, ∃ d1 d2 d3 : Char,
    cs = ns ++ '/' :: (wf ++ '/' :: ('v' :: (ver ++ '/' ::
      (ph ++ '/' :: (lane ++ '/' :: (d1 :: d2 :: d3 :: rest)))))) ∧
    SegChars ns ∧ SegChars wf ∧ DigitChars ver ∧ SegChars ph ∧ SegChars lane ∧
    isDigitCh d1 = true ∧ isDigitCh d2 = true ∧ isDigitCh d3 = true ∧ TailOk rest

/-- Decimal digit list of a natural number, fuel-structured so that it
computes by `decide`.  `natReprAux (n+1) n` equals Python `str(n)` for a
nonnegative `n`. -/
def natReprAux : Nat → Nat → List Char
  | 0, _ => []
  | fuel + 1, n =>
    if n < 10 then [Char.ofNat (48 + n)]
    else natReprAux fuel (n / 10) ++ [Char.ofNat (48 + n % 10)]

/-- Decimal representation of a natural number (Python `str`). -/
def natRepr (n : Nat) : List Char :=
  natReprAux (n + 1) n

/-- Left-pad a character list with `'0'` to width `w` (no-op when already at
least `w` long). -/
def padZeros (w : Nat) (cs : List Char) : List Char :=
  List.replicate (w - cs.length) '0' ++ cs

/-- Python `f"{n:03d}"`: zero-pad the decimal form of `n` to a minimum total
width of 3; for a negative `n` the sign counts toward the width. -/
def format03d (n : Int) : String :=
  if n < 0 then String.mk ('-' :: padZeros 2 (natRepr (-n).toNat))
  else String.mk (padZeros 3 (natRepr n.toNat))

/-- Python `str` of an int, used for the `-r{revision}` suffix. -/
def intRepr (n : Int) : String :=
  if n < 0 then String.mk ('-' :: natRepr (-n).toNat)
  else String.mk (natRepr n.toNat)

/-- Embedding of `build_atom_key` (`id_utils.py` lines 50–85).  The source
performs no validation at all: it formats the sequence with `f"{seq:03d}"`,
joins the segments with `/`, appends `-variant` when `variant` is truthy
(given and nonempty) and `-r{revision}` when `revision` is not `None`. -/
def build_atom_key (nspace workflow version phase lane : String)
    (sequence : Int) (variant : Option String) (revision : Option Int) : String :=
  let seq_padded := format03d sequence
  let base := nspace ++ "/" ++ workflow ++ "/" ++ version ++ "/" ++ phase ++ "/" ++
    lane ++ "/" ++ seq_padded
  let withVariant :=
    match variant with
    | some v => if v == "" then base else base ++ "-" ++ v
    | none => base
  match revision with
  | some r => withVariant ++ "-r" ++ intRepr r
  | none => withVariant

/-- All characters of a string lie in `[a-z0-9-]`. -/
def segCharsOkStr (s : String) : Bool :=
  s.data.all isLowerAlnumDash

/-- A string of the form `v` followed by one or more digits. -/
def versionOkStr (s : String) : Bool :=
  match s.data with
  | 'v' :: ds => (!ds.isEmpty) && ds.all isDigitCh
  | _ => false

/-- Modelled from the spec: the `buildKey` contract of spec §4.1, which —
unlike the source `build_atom_key` — fails with `InvalidArgument` if any
segment contains characters outside `[a-z0-9-]`, if `version` does not match
`v\d+`, or if `sequence` is negative or exceeds 999. -/
def buildKeySpec (nspace workflow version phase lane : String)
    (sequence : Int) (variant : Option String) (revision : Option Int) :
    Except String String :=
  if !(segCharsOkStr nspace && segCharsOkStr workflow && segCharsOkStr phase &&
      segCharsOkStr lane) then
    Except.error "InvalidArgument"
  else if !versionOkStr version then
    Except.error "InvalidArgument"
  else if (sequence < 0) || (999 < sequence) then
    Except.error "InvalidArgument"
  else
    Except.ok (build_atom_key nspace workflow version phase lane sequence variant revision)

/-- A YAML-ish value as produced by `yaml.safe_load`, restricted to the
shapes the validator inspects: strings, integers, booleans, null, sequences
and mappings (a mapping is a list of key/value pairs with distinct keys,
since Python dict keys are unique). -/
inductive Value where
  | str (s : String)
  | int (n : Int)
  | bool (b : Bool)
  | null
  | list (l : List Value)
  | dict (fields : List (String × Value))

/-- Python truthiness of a `Value` (used by `not atom[x]` in the source). -/
def pyTruthy : Value → Bool
  | Value.str s => s != ""
  | Value.int n => n != 0
  | Value.bool b => b
  | Value.null => false
  | Value.list l => !l.isEmpty
  | Value.dict fs => !fs.isEmpty

/-- Python `isinstance(v, str)`. -/
def isStr : Value → Bool
  | Value.str _ => true
  | _ => false

/-- Python dict lookup on the field list of a `Value.dict` (keys are unique
in a Python dict, so first-match lookup is the dict lookup). -/
def lookupField : List (String × Value) → String → Option Value
  | [], _ => none
  | (k, v) :: rest, key => if k == key then some v else lookupField rest key

/-- An in-memory atom record as the validator sees it: the YAML mapping
restricted to the seven keys `validate_atom` reads (`none` means the key is
absent; all other keys are ignored by the validator). -/
structure Atom where
  atom_uid : Option Value
  atom_key : Option Value
  title : Option Value
  role : Option Value
  deps : Option Value
  inputs : Option Value
  outputs : Option Value

/-- The `atom_uid` checks of `validate_atom` (`atom_validator.py` lines
37–40).  A non-string value reaches `re.match`, which raises `TypeError`
(modelled as `Except.error`). -/
def checkUid : Option Value → Except String (List String)
  | none => Except.ok ["Missing required field: atom_uid"]
  | some (Value.str s) =>
    Except.ok (if validate_ulid s then [] else ["Invalid atom_uid format: " ++ s])
  | some _ => Except.error "TypeError: expected string or bytes-like object"

/-- The `atom_key` checks of `validate_atom` (lines 42–45). -/
def checkKey : Option Value → Except String (List String)
  | none => Except.ok ["Missing required field: atom_key"]
  | some (Value.str s) =>
    Except.ok (if validate_atom_key s then [] else ["Invalid atom_key format: " ++ s])
  | some _ => Except.error "TypeError: expected string or bytes-like object"

/-- The `title`/`role` checks of `validate_atom` (lines 47–55): the field
must be present, truthy and a string. -/
def checkStrField (name : String) : Option Value → List String
  | none => ["Missing required field: " ++ name]
  | some w =>
    if pyTruthy w && isStr w then []
    else ["Field \x27" ++ name ++ "\x27 must be a non-empty string"]

/-- One `deps` element (lines 62–70): a string is validated as a ULID; a
dict is validated only when it has a `uid` key (a non-string `uid` reaches
`re.match` and raises); anything else is an error tagged with its index. -/
def checkDep (i : Nat) : Value → Except String (List String)
  | Value.str s =>
    Except.ok (if validate_ulid s then []
      else ["Invalid dependency ULID at index " ++ toString i ++ ": " ++ s])
  | Value.dict fs =>
    match lookupField fs "uid" with
    | none => Except.ok []
    | some (Value.str s) =>
      Except.ok (if validate_ulid s then []
        else ["Invalid dependency ULID at index " ++ toString i ++ ": " ++ s])
    | some _ => Except.error "TypeError: expected string or bytes-like object"
  | _ => Except.ok ["Invalid dependency format at index " ++ toString i]

/-- The indexed loop over `deps` elements, accumulating all errors in order
(a raised `TypeError` aborts at the raising element, as in Python). -/
def checkDepList (i : Nat) : List Value → Except String (List String)
  | [] => Except.ok []
  | d :: rest =>
    match checkDep i d with
    | Except.error e => Except.error e
    | Except.ok e1 =>
      match checkDepList (i + 1) rest with
      | Except.error e => Except.error e
      | Except.ok es => Except.ok (e1 ++ es)

/-- The `deps` checks of `validate_atom` (lines 57–70). -/
def checkDepsField : Option Value → Except String (List String)
  | none => Except.ok []
  | some (Value.list l) => checkDepList 0 l
  | some _ => Except.ok ["Field \x27deps\x27 must be a list"]

/-- The indexed loop over `inputs`/`outputs` elements (lines 78–80). -/
def checkItems (name : String) (i : Nat) : List Value → List String
  | [] => []
  | x :: rest =>
    (if isStr x then []
     else ["Invalid " ++ name ++ " item at index " ++ toString i ++ ": must be a string"]) ++
      checkItems name (i + 1) rest

/-- The `inputs`/`outputs` checks of `validate_atom` (lines 73–80). -/
def checkItemsField (name : String) : Option Value → List String
  | none => []
  | some (Value.list l) => checkItems name 0 l
  | some _ => ["Field \x27" ++ name ++ "\x27 must be a list"]

/-- Embedding of `validate_atom` (`atom_validator.py` lines 15–82) on an
already-parsed record: the error list accumulates in source order; the
`TypeError` raised by `re.match` on a non-string `atom_uid`, `atom_key` or
dependency `uid` propagates (the checks before it cannot raise, so the
first raising check in source order wins, as in Python). -/
def validate_atom (a : Atom) : Except String (List String) :=
  match checkUid a.atom_uid with
  | Except.error e => Except.error e
  | Except.ok e1 =>
    match checkKey a.atom_key with
    | Except.error e => Except.error e
    | Except.ok e2 =>
      match checkDepsField a.deps with
      | Except.error e => Except.error e
      | Except.ok e5 =>
        Except.ok (e1 ++ e2 ++ checkStrField "title" a.title ++
          checkStrField "role" a.role ++ e5 ++
          checkItemsField "inputs" a.inputs ++ checkItemsField "outputs" a.outputs)

/-- A conforming `deps` element as the code actually accepts it: a string
that validates as a ULID, or a dict whose `uid` field — when present — is a
string that validates as a ULID. -/
def depOk : Value → Bool
  | Value.str s => validate_ulid s
  | Value.dict fs =>
    match lookupField fs "uid" with
    | none => true
    | some (Value.str s) => validate_ulid s
    | some _ => false
  | _ => false

/-- A present, nonempty string field. -/
def strFieldOk : Option Value → Bool
  | some (Value.str s) => s != ""
  | _ => false

/-- A present string field passing `validate_ulid`. -/
def uidOkOpt : Option Value → Bool
  | some (Value.str s) => validate_ulid s
  | _ => false

/-- A present string field passing `validate_atom_key`. -/
def keyOkOpt : Option Value → Bool
  | some (Value.str s) => validate_atom_key s
  | _ => false

/-- An absent `deps` field, or a sequence of conforming elements. -/
def depsOkOpt : Option Value → Bool
  | none => true
  | some (Value.list l) => l.all depOk
  | some _ => false

/-- An absent `inputs`/`outputs` field, or a sequence of strings. -/
def itemsOkOpt : Option Value → Bool
  | none => true
  | some (Value.list l) => l.all isStr
  | some _ => false

/-- Full conformance of a record, stated declaratively as the conjunction of
the validator's rules: `atom_uid` present and a valid identifier, `atom_key`
present and a valid key, `title` and `role` present nonempty strings, `deps`
(if present) a sequence of conforming elements, and `inputs`/`outputs`
(if present) sequences of strings. -/
def conformant (a : Atom) : Bool :=
  uidOkOpt a.atom_uid && keyOkOpt a.atom_key && strFieldOk a.title &&
    strFieldOk a.role && depsOkOpt a.deps && itemsOkOpt a.inputs &&
    itemsOkOpt a.outputs

/-- A registry event as appended by `generate_yaml_and_registry`
(`process2atoms.py` lines 282–291): all fields are strings. -/
structure RegistryEntry where
  action : String
  atom_uid : String
  atom_key : String
  title : String
  role : String
  source_doc : String
  version : String
  timestamp : String
deriving DecidableEq, Repr

/-- One physical line of the JSONL registry file, as `read_registry_map`
classifies it: a line whose JSON object carries string `atom_uid` and
`atom_key` fields (the serialization of a `RegistryEntry` is modelled
abstractly: `json.dumps` of a flat record of strings parses back to the
same fields), a blank line, a line that fails `json.loads`, a JSON object
line without string `atom_uid`/`atom_key` fields, or a line whose JSON
parses to a *non-object* value such as `5`, `"x"`, `[1]` or `null` — on
such a line the source reaches `obj.get("atom_uid")` and raises
`AttributeError`, because its `try/except` wraps only `json.loads`. -/
inductive Line where
  | entry (e : RegistryEntry)
  | blank
  | malformed
  | missingFields
  | nonRecord
deriving DecidableEq, Repr

/-- The parsed entry of a line, if any. -/
def lineEntry : Line → Option RegistryEntry
  | Line.entry e => some e
  | _ => none

/-- One fold step of `read_registry_map`: `mp[key] = uid` overwrites the
previous binding for the key; non-entry lines are skipped. -/
def applyLine (m : String → Option String) (ln : Line) : String → Option String :=
  match lineEntry ln with
  | some e => fun k => if k == e.atom_key then some e.atom_uid else m k
  | none => m

/-- The line loop of `read_registry_map`: fold the lines in file order,
skipping blank lines, lines that fail `json.loads`, and JSON objects
without string `atom_uid`/`atom_key`; a line whose JSON parses to a
non-object value aborts the whole loop with `AttributeError` (the partial
map is discarded, since the exception propagates out of the function). -/
def readRegistryGo : (String → Option String) → List Line →
    Except String (String → Option String)
  | m, [] => Except.ok m
  | _, Line.nonRecord :: _ =>
    Except.error "AttributeError: object has no attribute \x27get\x27"
  | m, ln :: rest => readRegistryGo (applyLine m ln) rest

/-- Embedding of `read_registry_map` (`process2atoms.py` lines 179–197).
The file is `none` when `registry_path.exists()` is false (empty map), else
the list of its lines.  Only `json.loads` failures are caught: a JSON
non-object line raises out of the read (`Except.error`). -/
def read_registry_map : Option (List Line) →
    Except String (String → Option String)
  | none => Except.ok (fun _ => none)
  | some lines => readRegistryGo (fun _ => none) lines

/-- The entries among a file's lines, in file order. -/
def parsedEntries (lines : List Line) : List RegistryEntry :=
  lines.filterMap lineEntry

/-- The identifier of the last entry for key `k`, or `fallback` when no
entry carries `k`. -/
def lastUidOr (es : List RegistryEntry) (k : String) (fallback : Option String) :
    Option String :=
  match (es.filter (fun e => e.atom_key == k)).getLast? with
  | some e => some e.atom_uid
  | none => fallback

/-- The identifier of the last entry among `es` carrying key `k` (the
read-back truth of the spec: last entry wins, in order of appearance). -/
def lastAssigned (es : List RegistryEntry) (k : String) : Option String :=
  lastUidOr es k none

/-- The retry loop of `append_registry_entries` (`process2atoms.py` lines
204–214): `other j` tells whether the lock token file exists (so that
`os.open(..., O_CREAT | O_EXCL)` raises `FileExistsError`) at the `j`-th
attempt.  Returns `(attempts made, sleeps performed, acquired)`: each
failed attempt sleeps once before the next try; a successful exclusive
create breaks out of the loop. -/
def acquireGo (other : Nat → Bool) (i : Nat) : Nat → Nat × Nat × Bool
  | 0 => (i, i, false)
  | fuel + 1 =>
    if other i then acquireGo other (i + 1) fuel
    else (i + 1, i, true)

/-- The fixed attempt bound of the lock retry loop (`range(100)`). -/
def lockMaxAttempts : Nat := 100

/-- The fixed sleep between attempts, in centiseconds (`time.sleep(0.05)`). -/
def lockRetrySleepCentis : Nat := 5

/-- The full acquisition loop: at most `lockMaxAttempts` exclusive-create
attempts starting from attempt 0. -/
def acquireLoop (other : Nat → Bool) : Nat × Nat × Bool :=
  acquireGo other 0 lockMaxAttempts

/-- The observable outcome of one `append_registry_entries` call. -/
structure AppendResult where
  attempts : Nat
  sleeps : Nat
  acquired : Bool
  registry : Option (List Line)
  lockExists : Bool
deriving Repr

/-- Embedding of `append_registry_entries` (`process2atoms.py` lines
200–226) over explicit filesystem state.  `other` is the interference trace
of the lock token during the retry loop; `lockPresentAtCleanup` tells
whether another writer's token (still) exists when the `finally` block runs;
`registry` is the registry file content (`none` = file absent).  After the
loop — acquired or not — the entries are appended (append mode creates the
file), and the `finally` block removes the lock token whenever it exists,
whether or not this call created it. -/
def append_registry_entries (other : Nat → Bool) (lockPresentAtCleanup : Bool)
    (registry : Option (List Line)) (entries : List RegistryEntry) : AppendResult :=
  let r := acquireLoop other
  let attempts := r.1
  let sleeps := r.2.1
  let acquired := r.2.2
  let newContent := registry.getD [] ++ entries.map Line.entry
  let lockAtCleanup := acquired || lockPresentAtCleanup
  let lockAfter := if lockAtCleanup then false else lockAtCleanup
  ⟨attempts, sleeps, acquired, some newContent, lockAfter⟩

/-- Embedding of the lookup-or-assign fragment of `generate_yaml_and_registry`
(`process2atoms.py` lines 248 and 281):
`uid = registry_map.get(atom_key) or generate_ulid()` and
`action = "upsert" if atom_key in registry_map else "insert"`.
`freshUlid` stands for the `generate_ulid()` result; Python `or` falls
through on a falsy left operand, so an *empty string* mapped value is
replaced by the fresh identifier. -/
def lookupOrAssign (registry_map : String → Option String) (atom_key : String)
    (freshUlid : String) : String × String :=
  let uid :=
    match registry_map atom_key with
    | some u => if u == "" then freshUlid else u
    | none => freshUlid
  let action :=
    match registry_map atom_key with
    | some _ => "upsert"
    | none => "insert"
  (uid, action)

/-! ### Concrete fixtures used by the theorems below -/

/-- A well-formed 26-character identifier over the crockford alphabet. -/
def ulidDemo : String := "01ARZ3NDEKTSV4RRFFQ69G5FAV"

/-- A well-formed atom key. -/
def keyDemo : String := "cli/dev-setup/v1/init/all/001"

/-- A current mapping that binds `keyDemo` to the *empty string* — a value
`read_registry_map` can produce from a registry line whose `atom_uid` field
is `""`. -/
def mapEmptyUid : String → Option String :=
  fun k => if k == keyDemo then some "" else none

/-- A current mapping binding the key `"a"` to the identifier `"u"`. -/
def mapSingle : String → Option String :=
  fun k => if k == "a" then some "u" else none

/-- The spec §8 validator example: a record whose `atom_uid` is the string
`"invalid"` and whose `title` is missing; `atom_key` and `role` are valid. -/
def c7rec : Atom :=
  ⟨some (Value.str "invalid"), some (Value.str keyDemo), none,
    some (Value.str "builder"), none, none, none⟩

/-- A fully valid record whose `deps` contains one structured entry that
does not expose a `uid` field. -/
def c8recA : Atom :=
  ⟨some (Value.str ulidDemo), some (Value.str keyDemo), some (Value.str "T"),
    some (Value.str "builder"), some (Value.list [Value.dict []]), none, none⟩

/-- A fully valid record whose `deps` contains a valid string entry at index
0 and a non-string, non-dict entry at index 1. -/
def c8recB : Atom :=
  ⟨some (Value.str ulidDemo), some (Value.str keyDemo), some (Value.str "T"),
    some (Value.str "builder"),
    some (Value.list [Value.str ulidDemo, Value.int 5]), none, none⟩

/-- Registry entry for `keyDemo` carrying the *later* timestamp; it appears
earlier in the demo file below. -/
def regLate : RegistryEntry :=
  ⟨"insert", "01AAAAAAAAAAAAAAAAAAAAAAAA", keyDemo, "T", "builder", "doc.md",
    "v1", "2025-12-31T23:59:59"⟩

/-- Registry entry for `keyDemo` carrying the *earlier* timestamp; it
appears later in the demo file, so it wins on read-back. -/
def regEarly : RegistryEntry :=
  ⟨"upsert", "01BBBBBBBBBBBBBBBBBBBBBBBB", keyDemo, "T", "builder", "doc.md",
    "v1", "2025-01-01T00:00:00"⟩

/-! ### Characterisation of the regex embeddings -/

theorem ulidCore_iff (cs : List Char) :
    ulidCore cs = true ↔ cs.length = 26 ∧ ∀ c ∈ cs, isCrockford c = true := by
  simp [ulidCore, List.all_eq_true]

theorem stripFinalNewline_eq_some (cs ds : List Char) :
    stripFinalNewline cs = some ds ↔ cs = ds ++ ['\n'] := by
  constructor
  · intro h
    unfold stripFinalNewline at h
    rcases hl : cs.getLast? with _ | c
    · simp [hl] at h
    · simp only [hl] at h
      by_cases hc : c = '\n'
      · subst hc
        rw [if_pos rfl] at h
        have hds := Option.some.inj h
        obtain ⟨ys, rfl⟩ := List.getLast?_eq_some_iff.mp hl
        rw [List.dropLast_concat] at hds
        rw [hds]
      · rw [if_neg hc] at h
        simp at h
  · intro h
    subst h
    unfold stripFinalNewline
    simp only [List.getLast?_concat]
    rw [if_pos trivial, List.dropLast_concat]

theorem pyMatchFull_iff (core : List Char → Bool) (s : String) :
    pyMatchFull core s = true ↔
      core s.data = true ∨ ∃ cs, s.data = cs ++ ['\n'] ∧ core cs = true := by
  unfold pyMatchFull
  rw [Bool.or_eq_true]
  apply or_congr Iff.rfl
  constructor
  · intro h
    rcases hs : stripFinalNewline s.data with _ | ds
    · rw [hs] at h; simp at h
    · rw [hs] at h
      exact ⟨ds, (stripFinalNewline_eq_some _ _).mp hs, h⟩
  · rintro ⟨cs, hcs, hcore⟩
    rw [(stripFinalNewline_eq_some s.data cs).mpr hcs]
    exact hcore

/-! ### The key matcher recognises exactly the spec §3 grammar -/

theorem takeWhile_over (p : Char → Bool) {seg : List Char} (rest : List Char)
    (hseg : ∀ c ∈ seg, p c = true) (hsl : p '/' = false) :
    (seg ++ '/' :: rest).takeWhile p = seg ∧
      (seg ++ '/' :: rest).dropWhile p = '/' :: rest := by
  induction seg with
  | nil =>
    constructor
    · simp [List.takeWhile_cons, hsl]
    · simp [List.dropWhile_cons, hsl]
  | cons c cs ih =>
    have hc : p c = true := hseg c (by simp)
    have ih2 := ih fun x hx => hseg x (by simp [hx])
    constructor
    · simp [List.takeWhile_cons, hc, ih2.1]
    · simp [List.dropWhile_cons, hc, ih2.2]

theorem chompSeg_append {seg rest : List Char} (h1 : seg ≠ [])
    (h2 : ∀ c ∈ seg, isLowerAlnumDash c = true) :
    chompSeg (seg ++ '/' :: rest) = some rest := by
  obtain ⟨ht, hd⟩ := takeWhile_over isLowerAlnumDash rest h2 (by decide)
  unfold chompSeg
  rw [ht, hd]
  simp [h1]

theorem chompSeg_sound {cs r : List Char} (h : chompSeg cs = some r) :
    ∃ seg, cs = seg ++ '/' :: r ∧ seg ≠ [] ∧ ∀ c ∈ seg, isLowerAlnumDash c = true := by
  unfold chompSeg at h
  by_cases ht : cs.takeWhile isLowerAlnumDash = []
  · simp [ht] at h
  · rw [if_neg ht] at h
    rcases hd : cs.dropWhile isLowerAlnumDash with _ | ⟨d, rest⟩
    · simp [hd] at h
    · simp only [hd] at h
      by_cases hdc : d = '/'
      · subst hdc
        rw [if_pos rfl] at h
        obtain rfl : rest = r := Option.some.inj h
        have hsplit := List.takeWhile_append_dropWhile isLowerAlnumDash cs
        refine ⟨cs.takeWhile isLowerAlnumDash, ?_, ht, ?_⟩
        · conv_lhs => rw [← hsplit]
          rw [hd]
        · intro c hc
          exact List.mem_takeWhile_imp hc
      · rw [if_neg hdc] at h; simp at h

theorem chompVer_append {ds rest : List Char} (h1 : ds ≠ [])
    (h2 : ∀ c ∈ ds, isDigitCh c = true) :
    chompVer ('v' :: (ds ++ '/' :: rest)) = some rest := by
  obtain ⟨ht, hd⟩ := takeWhile_over isDigitCh rest h2 (by decide)
  simp only [chompVer]
  rw [if_pos trivial, ht, if_neg h1]
  simp only [hd]
  rw [if_pos trivial]

theorem chompVer_sound {cs r : List Char} (h : chompVer cs = some r) :
    ∃ ds, cs = 'v' :: (ds ++ '/' :: r) ∧ ds ≠ [] ∧ ∀ c ∈ ds, isDigitCh c = true := by
  rcases cs with _ | ⟨c, cs⟩
  · simp [chompVer] at h
  · simp only [chompVer] at h
    by_cases hc : c = 'v'
    · subst hc
      rw [if_pos rfl] at h
      by_cases ht : cs.takeWhile isDigitCh = []
      · simp [ht] at h
      · rw [if_neg ht] at h
        rcases hd : cs.dropWhile isDigitCh with _ | ⟨d, rest⟩
        · simp [hd] at h
        · simp only [hd] at h
          by_cases hdc : d = '/'
          · subst hdc
            rw [if_pos rfl] at h
            have hrr : rest = r := Option.some.inj h
            have hsplit := List.takeWhile_append_dropWhile isDigitCh cs
            refine ⟨cs.takeWhile isDigitCh, ?_, ht, ?_⟩
            · have hcs2 : cs = cs.takeWhile isDigitCh ++ '/' :: rest := by
                conv_lhs => rw [← hsplit]
                rw [hd]
              rw [← hrr, ← hcs2]
            · intro x hx
              exact List.mem_takeWhile_imp hx
          · rw [if_neg hdc] at h; simp at h
    · rw [if_neg hc] at h; simp at h

theorem tailOkB_iff (rest : List Char) : tailOkB rest = true ↔ TailOk rest := by
  cases rest with
  | nil => simp [tailOkB, TailOk]
  | cons c w =>
    constructor
    · intro h
      simp only [tailOkB, Bool.and_eq_true, beq_iff_eq] at h
      obtain ⟨⟨hc, hne⟩, hall⟩ := h
      subst hc
      refine Or.inr ⟨w, rfl, ?_, List.all_eq_true.mp hall⟩
      intro hw
      rw [hw] at hne
      simp at hne
    · rintro (h | ⟨w', hw', hne, hall⟩)
      · simp at h
      · have hc : c = '-' := by injection hw'
        have hw : w = w' := by injection hw'
        subst hc
        rw [hw]
        rcases w' with _ | ⟨x, xs⟩
        · exact absurd rfl hne
        · simp only [tailOkB, beq_self_eq_true, List.isEmpty_cons, Bool.not_false,
            true_and, Bool.and_eq_true]
          exact List.all_eq_true.mpr hall

theorem atomKeyCore_iff (cs : List Char) : atomKeyCore cs = true ↔ IsAtomKey cs := by
  constructor
  · intro h
    unfold atomKeyCore at h
    rcases h1 : chompSeg cs with _ | r1
    · simp [h1] at h
    simp only [h1] at h
    rcases h2 : chompSeg r1 with _ | r2
    · simp [h2] at h
    simp only [h2] at h
    rcases h3 : chompVer r2 with _ | r3
    · simp [h3] at h
    simp only [h3] at h
    rcases h4 : chompSeg r3 with _ | r4
    · simp [h4] at h
    simp only [h4] at h
    rcases h5 : chompSeg r4 with _ | r5
    · simp [h5] at h
    simp only [h5] at h
    obtain ⟨s1, rfl, hs1ne, hs1⟩ := chompSeg_sound h1
    obtain ⟨s2, rfl, hs2ne, hs2⟩ := chompSeg_sound h2
    obtain ⟨ver, rfl, hverne, hver⟩ := chompVer_sound h3
    obtain ⟨s4, rfl, hs4ne, hs4⟩ := chompSeg_sound h4
    obtain ⟨s5, rfl, hs5ne, hs5⟩ := chompSeg_sound h5
    rcases r5 with _ | ⟨d1, r5a⟩
    · simp [lastSegOkB] at h
    rcases r5a with _ | ⟨d2, r5b⟩
    · simp [lastSegOkB] at h
    rcases r5b with _ | ⟨d3, rest⟩
    · simp [lastSegOkB] at h
    simp only [lastSegOkB, Bool.and_eq_true] at h
    obtain ⟨⟨⟨hd1, hd2⟩, hd3⟩, htail⟩ := h
    exact ⟨s1, s2, ver, s4, s5, rest, d1, d2, d3, rfl, ⟨hs1ne, hs1⟩, ⟨hs2ne, hs2⟩,
      ⟨hverne, hver⟩, ⟨hs4ne, hs4⟩, ⟨hs5ne, hs5⟩, hd1, hd2, hd3, (tailOkB_iff rest).mp htail⟩
  · rintro ⟨ns, wf, ver, ph, lane, rest, d1, d2, d3, rfl, ⟨hns, hnsall⟩, ⟨hwf, hwfall⟩,
      ⟨hver, hverall⟩, ⟨hph, hphall⟩, ⟨hlane, hlaneall⟩, hd1, hd2, hd3, htail⟩
    simp only [atomKeyCore, chompSeg_append hns hnsall, chompSeg_append hwf hwfall,
      chompVer_append hver hverall, chompSeg_append hph hphall,
      chompSeg_append hlane hlaneall, lastSegOkB, Bool.and_eq_true]
    exact ⟨⟨⟨hd1, hd2⟩, hd3⟩, (tailOkB_iff rest).mpr htail⟩

theorem validate_atom_key_chars (s : String) :
    validate_atom_key s = true ↔
      IsAtomKey s.data ∨ ∃ cs, s.data = cs ++ ['\n'] ∧ IsAtomKey cs := by
  rw [validate_atom_key, pyMatchFull_iff]
  apply or_congr (atomKeyCore_iff s.data)
  constructor
  · rintro ⟨cs, hcs, hcore⟩
    exact ⟨cs, hcs, (atomKeyCore_iff cs).mp hcore⟩
  · rintro ⟨cs, hcs, hkey⟩
    exact ⟨cs, hcs, (atomKeyCore_iff cs).mpr hkey⟩

theorem validate_ulid_chars (s : String) :
    validate_ulid s = true ↔
      (s.data.length = 26 ∧ ∀ c ∈ s.data, isCrockford c = true) ∨
        ∃ cs, s.data = cs ++ ['\n'] ∧ cs.length = 26 ∧ ∀ c ∈ cs, isCrockford c = true := by
  rw [validate_ulid, pyMatchFull_iff]
  apply or_congr (ulidCore_iff s.data)
  constructor
  · rintro ⟨cs, hcs, hcore⟩
    exact ⟨cs, hcs, (ulidCore_iff cs).mp hcore⟩
  · rintro ⟨cs, hcs, hlen, hall⟩
    exact ⟨cs, hcs, (ulidCore_iff cs).mpr ⟨hlen, hall⟩⟩

/-! ### Sequence formatting -/

theorem natReprAux_small {fuel n : Nat} (hf : 0 < fuel) (h : n < 10) :
    natReprAux fuel n = [Char.ofNat (48 + n)] := by
  cases fuel with
  | zero => omega
  | succ f => simp [natReprAux, h]

theorem natRepr_length_le3 {n : Nat} (h : n < 1000) : (natRepr n).length ≤ 3 := by
  unfold natRepr
  by_cases h1 : n < 10
  · rw [natReprAux_small (by omega) h1]
    simp
  · have e1 : natReprAux (n + 1) n = natReprAux n (n / 10) ++ [Char.ofNat (48 + n % 10)] := by
      simp [natReprAux, h1]
    rw [e1]
    by_cases h2 : n < 100
    · rw [natReprAux_small (by omega) (by omega)]
      simp
    · obtain ⟨m, rfl⟩ : ∃ m, n = m + 1 := ⟨n - 1, by omega⟩
      have e2 : natReprAux (m + 1) ((m + 1) / 10) =
          natReprAux m ((m + 1) / 10 / 10) ++ [Char.ofNat (48 + (m + 1) / 10 % 10)] := by
        have hx : ¬((m + 1) / 10 < 10) := by omega
        simp [natReprAux, hx]
      rw [e2, natReprAux_small (by omega) (by omega)]
      simp

theorem format03d_length {n : Int} (h0 : 0 ≤ n) (h1 : n ≤ 999) :
    (format03d n).length = 3 := by
  unfold format03d
  rw [if_neg (by omega)]
  have hlt : n.toNat < 1000 := by omega
  have hle := natRepr_length_le3 hlt
  simp only [String.length, padZeros, List.length_append, List.length_replicate]
  omega

/-! ### The record validator accumulates exactly the declarative rules -/

theorem checkUid_ok_iff (v : Option Value) :
    checkUid v = Except.ok [] ↔ uidOkOpt v = true := by
  rcases v with _ | w
  · simp [checkUid, uidOkOpt]
  · cases w with
    | str s => cases hv : validate_ulid s <;> simp [checkUid, uidOkOpt, hv]
    | int n => simp [checkUid, uidOkOpt]
    | bool b => simp [checkUid, uidOkOpt]
    | null => simp [checkUid, uidOkOpt]
    | list l => simp [checkUid, uidOkOpt]
    | dict fs => simp [checkUid, uidOkOpt]

theorem checkKey_ok_iff (v : Option Value) :
    checkKey v = Except.ok [] ↔ keyOkOpt v = true := by
  rcases v with _ | w
  · simp [checkKey, keyOkOpt]
  · cases w with
    | str s => cases hv : validate_atom_key s <;> simp [checkKey, keyOkOpt, hv]
    | int n => simp [checkKey, keyOkOpt]
    | bool b => simp [checkKey, keyOkOpt]
    | null => simp [checkKey, keyOkOpt]
    | list l => simp [checkKey, keyOkOpt]
    | dict fs => simp [checkKey, keyOkOpt]

theorem checkStrField_nil_iff (name : String) (v : Option Value) :
    checkStrField name v = [] ↔ strFieldOk v = true := by
  rcases v with _ | w
  · simp [checkStrField, strFieldOk]
  · cases w with
    | str s =>
      by_cases hs : s = ""
      · subst hs
        simp [checkStrField, strFieldOk, pyTruthy, isStr]
      · simp [checkStrField, strFieldOk, pyTruthy, isStr, hs]
    | int n => simp [checkStrField, strFieldOk, pyTruthy, isStr]
    | bool b => simp [checkStrField, strFieldOk, pyTruthy, isStr]
    | null => simp [checkStrField, strFieldOk, pyTruthy, isStr]
    | list l => simp [checkStrField, strFieldOk, pyTruthy, isStr]
    | dict fs => simp [checkStrField, strFieldOk, pyTruthy, isStr]

theorem checkDep_ok_iff (i : Nat) (d : Value) :
    checkDep i d = Except.ok [] ↔ depOk d = true := by
  cases d with
  | str s => cases hv : validate_ulid s <;> simp [checkDep, depOk, hv]
  | dict fs =>
    rcases hl : lookupField fs "uid" with _ | u
    · simp [checkDep, depOk, hl]
    · cases u with
      | str s => cases hv : validate_ulid s <;> simp [checkDep, depOk, hl, hv]
      | int n => simp [checkDep, depOk, hl]
      | bool b => simp [checkDep, depOk, hl]
      | null => simp [checkDep, depOk, hl]
      | list l => simp [checkDep, depOk, hl]
      | dict fs2 => simp [checkDep, depOk, hl]
  | int n => simp [checkDep, depOk]
  | bool b => simp [checkDep, depOk]
  | null => simp [checkDep, depOk]
  | list l => simp [checkDep, depOk]

theorem checkDepList_ok_iff (l : List Value) :
    ∀ i : Nat, checkDepList i l = Except.ok [] ↔ l.all depOk = true := by
  induction l with
  | nil => intro i; simp [checkDepList]
  | cons d rest ih =>
    intro i
    constructor
    · intro h
      rcases hd : checkDep i d with e | e1
      · simp [checkDepList, hd] at h
      · rcases hrest : checkDepList (i + 1) rest with e | es
        · simp [checkDepList, hd, hrest] at h
        · simp only [checkDepList, hd, hrest] at h
          obtain ⟨he1, hes⟩ := List.append_eq_nil.mp (Except.ok.inj h)
          rw [List.all_cons, Bool.and_eq_true]
          constructor
          · exact (checkDep_ok_iff i d).mp (by rw [hd, he1])
          · exact (ih (i + 1)).mp (by rw [hrest, hes])
    · intro h
      rw [List.all_cons, Bool.and_eq_true] at h
      obtain ⟨hd, hrest⟩ := h
      have h1 := (checkDep_ok_iff i d).mpr hd
      have h2 := (ih (i + 1)).mpr hrest
      simp [checkDepList, h1, h2]

theorem checkDepsField_ok_iff (v : Option Value) :
    checkDepsField v = Except.ok [] ↔ depsOkOpt v = true := by
  rcases v with _ | w
  · simp [checkDepsField, depsOkOpt]
  · cases w with
    | str s => simp [checkDepsField, depsOkOpt]
    | int n => simp [checkDepsField, depsOkOpt]
    | bool b => simp [checkDepsField, depsOkOpt]
    | null => simp [checkDepsField, depsOkOpt]
    | list l => simpa [checkDepsField, depsOkOpt] using checkDepList_ok_iff l 0
    | dict fs => simp [checkDepsField, depsOkOpt]

theorem checkItems_nil_iff (name : String) (l : List Value) :
    ∀ i : Nat, checkItems name i l = [] ↔ l.all isStr = true := by
  induction l with
  | nil => intro i; simp [checkItems]
  | cons x rest ih =>
    intro i
    cases hx : isStr x
    · simp [checkItems, hx, List.all_cons]
    · simp [checkItems, hx, List.all_cons, ih (i + 1)]

theorem checkItemsField_nil_iff (name : String) (v : Option Value) :
    checkItemsField name v = [] ↔ itemsOkOpt v = true := by
  rcases v with _ | w
  · simp [checkItemsField, itemsOkOpt]
  · cases w with
    | str s => simp [checkItemsField, itemsOkOpt]
    | int n => simp [checkItemsField, itemsOkOpt]
    | bool b => simp [checkItemsField, itemsOkOpt]
    | null => simp [checkItemsField, itemsOkOpt]
    | list l => simpa [checkItemsField, itemsOkOpt] using checkItems_nil_iff name l 0
    | dict fs => simp [checkItemsField, itemsOkOpt]

theorem validate_atom_ok_iff (a : Atom) :
    validate_atom a = Except.ok [] ↔ conformant a = true := by
  rcases hu : checkUid a.atom_uid with e | e1
  · have hfalse : uidOkOpt a.atom_uid = false := by
      cases hb : uidOkOpt a.atom_uid
      · rfl
      · exfalso
        have h2 := (checkUid_ok_iff a.atom_uid).mpr hb
        rw [hu] at h2
        simp at h2
    simp [validate_atom, hu, conformant, hfalse]
  · rcases hk : checkKey a.atom_key with e | e2
    · have hfalse : keyOkOpt a.atom_key = false := by
        cases hb : keyOkOpt a.atom_key
        · rfl
        · exfalso
          have h2 := (checkKey_ok_iff a.atom_key).mpr hb
          rw [hk] at h2
          simp at h2
      simp [validate_atom, hu, hk, conformant, hfalse]
    · rcases hd : checkDepsField a.deps with e | e5
      · have hfalse : depsOkOpt a.deps = false := by
          cases hb : depsOkOpt a.deps
          · rfl
          · exfalso
            have h2 := (checkDepsField_ok_iff a.deps).mpr hb
            rw [hd] at h2
            simp at h2
        simp [validate_atom, hu, hk, hd, conformant, hfalse]
      · simp only [validate_atom, hu, hk, hd]
        constructor
        · intro h
          have hcat := Except.ok.inj h
          simp only [List.append_eq_nil] at hcat
          obtain ⟨⟨⟨⟨⟨⟨h1, h2⟩, h3⟩, h4⟩, h5⟩, h6⟩, h7⟩ := hcat
          simp only [conformant, Bool.and_eq_true]
          refine ⟨⟨⟨⟨⟨⟨?_, ?_⟩, ?_⟩, ?_⟩, ?_⟩, ?_⟩, ?_⟩
          · exact (checkUid_ok_iff _).mp (by rw [hu, h1])
          · exact (checkKey_ok_iff _).mp (by rw [hk, h2])
          · exact (checkStrField_nil_iff _ _).mp h3
          · exact (checkStrField_nil_iff _ _).mp h4
          · exact (checkDepsField_ok_iff _).mp (by rw [hd, h5])
          · exact (checkItemsField_nil_iff _ _).mp h6
          · exact (checkItemsField_nil_iff _ _).mp h7
        · intro h
          simp only [conformant, Bool.and_eq_true] at h
          obtain ⟨⟨⟨⟨⟨⟨h1, h2⟩, h3⟩, h4⟩, h5⟩, h6⟩, h7⟩ := h
          have g1 : e1 = [] := by
            have hx := (checkUid_ok_iff a.atom_uid).mpr h1
            rw [hu] at hx
            exact Except.ok.inj hx
          have g2 : e2 = [] := by
            have hx := (checkKey_ok_iff a.atom_key).mpr h2
            rw [hk] at hx
            exact Except.ok.inj hx
          have g5 : e5 = [] := by
            have hx := (checkDepsField_ok_iff a.deps).mpr h5
            rw [hd] at hx
            exact Except.ok.inj hx
          have g3 := (checkStrField_nil_iff "title" a.title).mpr h3
          have g4 := (checkStrField_nil_iff "role" a.role).mpr h4
          have g6 := (checkItemsField_nil_iff "inputs" a.inputs).mpr h6
          have g7 := (checkItemsField_nil_iff "outputs" a.outputs).mpr h7
          simp [g1, g2, g3, g4, g5, g6, g7]

/-! ### The registry read is last-entry-wins over the parsed lines -/

theorem foldl_applyLine (lines : List Line) :
    ∀ (m : String → Option String) (k : String),
      (lines.foldl applyLine m) k = lastUidOr (parsedEntries lines) k (m k) := by
  induction lines with
  | nil =>
    intro m k
    simp [parsedEntries, lastUidOr]
  | cons ln rest ih =>
    intro m k
    rw [List.foldl_cons, ih (applyLine m ln) k]
    cases ln with
    | entry e =>
      have hparsed : parsedEntries (Line.entry e :: rest) = e :: parsedEntries rest := by
        simp [parsedEntries, lineEntry]
      by_cases hk : k = e.atom_key
      · have hbeq : (e.atom_key == k) = true := by simp [hk]
        have hbeq2 : (k == e.atom_key) = true := by simp [hk]
        rw [hparsed]
        unfold lastUidOr
        rw [List.filter_cons]
        rw [if_pos (by simpa using hk.symm)]
        rcases hLast : (List.filter (fun x => x.atom_key == k) (parsedEntries rest)).getLast? with _ | e2
        · have hnil := List.getLast?_eq_none_iff.mp hLast
          rw [hnil]
          simp [applyLine, lineEntry, hbeq2]
        · obtain ⟨ys, hys⟩ := List.getLast?_eq_some_iff.mp hLast
          rw [hys, ← List.cons_append, List.getLast?_concat, List.getLast?_concat]
      · have hbeq : (e.atom_key == k) = false := by
          cases hb : e.atom_key == k
          · rfl
          · exact absurd (eq_of_beq hb).symm hk
        have hbeq2 : (k == e.atom_key) = false := by
          cases hb : k == e.atom_key
          · rfl
          · exact absurd (eq_of_beq hb) hk
        rw [hparsed]
        unfold lastUidOr
        rw [List.filter_cons, if_neg (show ¬((e.atom_key == k) = true) by simp [hbeq])]
        simp [applyLine, lineEntry, hbeq2]
    | blank => simp [parsedEntries, lineEntry, applyLine]
    | malformed => simp [parsedEntries, lineEntry, applyLine]
    | missingFields => simp [parsedEntries, lineEntry, applyLine]
    | nonRecord => simp [parsedEntries, lineEntry, applyLine]

theorem readRegistryGo_no_abort (lines : List Line) :
    ∀ m : String → Option String, Line.nonRecord ∉ lines →
      readRegistryGo m lines = Except.ok (lines.foldl applyLine m) := by
  induction lines with
  | nil => intro m _; rfl
  | cons ln rest ih =>
    intro m h
    have hln : ln ≠ Line.nonRecord := fun he => h (he ▸ List.mem_cons_self ln rest)
    have hrest : Line.nonRecord ∉ rest := fun hx => h (List.mem_cons_of_mem ln hx)
    rw [List.foldl_cons]
    cases ln with
    | entry e => simpa [readRegistryGo] using ih (applyLine m (Line.entry e)) hrest
    | blank => simpa [readRegistryGo] using ih (applyLine m Line.blank) hrest
    | malformed => simpa [readRegistryGo] using ih (applyLine m Line.malformed) hrest
    | missingFields =>
      simpa [readRegistryGo] using ih (applyLine m Line.missingFields) hrest
    | nonRecord => exact absurd rfl hln

theorem read_registry_map_ok (lines : List Line) (hne : Line.nonRecord ∉ lines) :
    read_registry_map (some lines) =
      Except.ok (lines.foldl applyLine (fun _ => none)) :=
  readRegistryGo_no_abort lines (fun _ => none) hne

theorem parsedEntries_map_entry (es : List RegistryEntry) :
    parsedEntries (es.map Line.entry) = es := by
  induction es with
  | nil => rfl
  | cons e rest ih =>
    simp only [List.map_cons, parsedEntries, List.filterMap_cons]
    simp only [lineEntry]
    simp only [parsedEntries] at ih
    rw [ih]

/-! ### The lock retry loop -/

theorem acquireGo_spec (other : Nat → Bool) :
    ∀ fuel i : Nat,
      (acquireGo other i fuel).1 ≤ i + fuel ∧
        (acquireGo other i fuel).2.1 +
          (if (acquireGo other i fuel).2.2 then 1 else 0) = (acquireGo other i fuel).1 ∧
        ((acquireGo other i fuel).2.2 = true ↔ ∃ j, j < fuel ∧ other (i + j) = false) := by
  intro fuel
  induction fuel with
  | zero =>
    intro i
    refine ⟨by simp [acquireGo], by simp [acquireGo], ?_⟩
    simp [acquireGo]
  | succ f ih =>
    intro i
    by_cases ho : other i = true
    · have hred : acquireGo other i (f + 1) = acquireGo other (i + 1) f := by
        simp [acquireGo, ho]
      obtain ⟨ha, hs, hiff⟩ := ih (i + 1)
      rw [hred]
      refine ⟨by omega, hs, ?_⟩
      rw [hiff]
      constructor
      · rintro ⟨j, hj, hoj⟩
        refine ⟨j + 1, by omega, ?_⟩
        rw [show i + (j + 1) = i + 1 + j by omega]
        exact hoj
      · rintro ⟨j, hj, hoj⟩
        cases j with
        | zero =>
          rw [Nat.add_zero] at hoj
          rw [ho] at hoj
          simp at hoj
        | succ j2 =>
          refine ⟨j2, by omega, ?_⟩
          rw [show i + 1 + j2 = i + (j2 + 1) by omega]
          exact hoj
    · have ho2 : other i = false := by
        cases hb : other i
        · rfl
        · exact absurd hb ho
      have hred : acquireGo other i (f + 1) = (i + 1, i, true) := by
        simp [acquireGo, ho2]
      rw [hred]
      refine ⟨by omega, by simp, ?_⟩
      constructor
      · intro _
        refine ⟨0, by omega, ?_⟩
        rw [Nat.add_zero]
        exact ho2
      · intro _
        rfl

/-! ### Claim theorems -/

/-- Claim C1, counterexample. The claim states that for *every* current
mapping containing `K ↦ U`, lookup-or-assign returns exactly `U` with no
fresh identifier generated.  It fails when `U` is the empty string: the
source computes `registry_map.get(atom_key) or generate_ulid()`, and Python
`or` falls through on the falsy `""`, so the fresh identifier is returned
even though the key is present (and the action is still `"upsert"`). -/
theorem lookupOrAssign_empty_uid_counterexample :
    mapEmptyUid keyDemo = some "" ∧
      lookupOrAssign mapEmptyUid keyDemo ulidDemo = (ulidDemo, "upsert") ∧
      ulidDemo ≠ "" := by
  refine ⟨by decide, by decide, by decide⟩

/-- Claim C1, amended: when the mapping contains `K ↦ U` with `U` a
*nonempty* string, lookup-or-assign returns exactly `U` (no fresh
identifier) with action `"upsert"`; when `K` is absent it returns the fresh
identifier with action `"insert"`.  (When `U = ""` the fresh identifier is
returned although the action is still `"upsert"`, as the counterexample
shows.) -/
theorem lookupOrAssign_amended :
    (∀ (m : String → Option String) (k fresh U : String),
        m k = some U → U ≠ "" → lookupOrAssign m k fresh = (U, "upsert")) ∧
      (∀ (m : String → Option String) (k fresh : String),
        m k = none → lookupOrAssign m k fresh = (fresh, "insert")) := by
  constructor
  · intro m k fresh U h hne
    have hbe : (U == "") = false := by
      cases hb : U == ""
      · rfl
      · exact absurd (eq_of_beq hb) hne
    simp [lookupOrAssign, h, hbe]
  · intro m k fresh h
    simp [lookupOrAssign, h]

/-- Witness for the amended C1 theorem at concrete inputs. -/
theorem lookupOrAssign_amended_witness :
    lookupOrAssign mapSingle "a" ulidDemo = ("u", "upsert") ∧
      lookupOrAssign mapSingle "b" ulidDemo = (ulidDemo, "insert") :=
  ⟨lookupOrAssign_amended.1 mapSingle "a" ulidDemo "u" (by decide) (by decide),
    lookupOrAssign_amended.2 mapSingle "b" ulidDemo (by decide)⟩

/-- Claim C2 (confirmed): appending N well-formed entries to an empty
registry — the file missing, or present with zero length — and then reading
the current mapping succeeds (a file the writer produced contains only
entry lines, so the read cannot abort) and yields exactly the read-back
rule `lastAssigned`: for every key, the `atom_uid` of the last appended
entry carrying that key, and `none` for every key not among those
written. -/
theorem append_then_read_round_trip :
    ∀ (other : Nat → Bool) (lk : Bool) (es : List RegistryEntry),
      read_registry_map (append_registry_entries other lk none es).registry =
          Except.ok (lastAssigned es) ∧
        read_registry_map (append_registry_entries other lk (some []) es).registry =
          Except.ok (lastAssigned es) := by
  intro other lk es
  have hmem : Line.nonRecord ∉ es.map Line.entry := by
    intro hx
    obtain ⟨e, -, he⟩ := List.mem_map.mp hx
    exact Line.noConfusion he
  have hfun : (es.map Line.entry).foldl applyLine (fun _ => none) = lastAssigned es := by
    funext k
    rw [foldl_applyLine, parsedEntries_map_entry]
    rfl
  constructor
  · have h1 : (append_registry_entries other lk none es).registry =
        some (es.map Line.entry) := by
      simp [append_registry_entries]
    rw [h1, read_registry_map_ok _ hmem, hfun]
  · have h1 : (append_registry_entries other lk (some []) es).registry =
        some (es.map Line.entry) := by
      simp [append_registry_entries]
    rw [h1, read_registry_map_ok _ hmem, hfun]

/-- Claim C3 (code_bug): the claim — and spec §4.3/§6 — says lines that
fail to parse as a structured record are skipped without aborting the
read, but the source guards only `json.loads`: a line whose JSON parses to
a non-object value (such as `5`) reaches `obj.get("atom_uid")` and raises
`AttributeError`, aborting the whole read (first conjunct evaluates the
code at such a failing input).  Away from that bug the claim's content
holds: a missing file reads back as the empty map, and on files without
non-object lines the fold is last-entry-wins in file order over the lines
that parse, skipping blank, unparsable and field-less lines — with the
demo file showing the later-in-file entry winning despite a strictly
earlier timestamp. -/
theorem read_registry_map_nonrecord_aborts :
    read_registry_map (some [Line.entry regLate, Line.nonRecord, Line.entry regEarly]) =
        Except.error "AttributeError: object has no attribute \x27get\x27" ∧
      (∀ (lines : List Line) (k : String), Line.nonRecord ∉ lines →
        ∃ m, read_registry_map (some lines) = Except.ok m ∧
          m k = lastUidOr (parsedEntries lines) k none) ∧
      read_registry_map none = Except.ok (fun _ => none) ∧
      (∃ m, read_registry_map
          (some [Line.blank, Line.entry regLate, Line.malformed,
            Line.missingFields, Line.entry regEarly]) = Except.ok m ∧
          m keyDemo = some "01BBBBBBBBBBBBBBBBBBBBBBBB") ∧
      regEarly.timestamp.data < regLate.timestamp.data := by
  refine ⟨rfl, ?_, rfl, ?_, by decide⟩
  · intro lines k hne
    exact ⟨lines.foldl applyLine (fun _ => none), read_registry_map_ok lines hne,
      foldl_applyLine lines (fun _ => none) k⟩
  · exact ⟨_, read_registry_map_ok _ (by decide), by decide⟩

/-- Witness for the hypothesis-bearing conjunct of the C3 theorem, at a
concrete two-entry file. -/
theorem read_registry_map_nonrecord_aborts_witness :
    ∃ m, read_registry_map (some [Line.entry regLate, Line.entry regEarly]) =
        Except.ok m ∧
      m keyDemo =
        lastUidOr (parsedEntries [Line.entry regLate, Line.entry regEarly]) keyDemo none :=
  read_registry_map_nonrecord_aborts.2.1
    [Line.entry regLate, Line.entry regEarly] keyDemo (by decide)

/-- Claim C4, counterexample. The claim states `build_atom_key` fails with
`InvalidArgument` when a segment contains characters outside `[a-z0-9-]`.
The source performs no validation at all: on an uppercase namespace it
returns the formatted key (which then fails `validate_atom_key`), whereas
the spec-modelled contract `buildKeySpec` rejects the same input. -/
theorem build_atom_key_no_validation_counterexample :
    build_atom_key "CLI" "setup" "v1" "init" "all" 3 none none =
        "CLI/setup/v1/init/all/003" ∧
      buildKeySpec "CLI" "setup" "v1" "init" "all" 3 none none =
        Except.error "InvalidArgument" ∧
      validate_atom_key "CLI/setup/v1/init/all/003" = false :=
  ⟨by decide, rfl, by decide⟩

/-- Claim C4, amended: `build_atom_key` never fails and validates nothing;
it zero-pads the sequence to width 3 (exactly 3 characters for sequences
0–999, with 0 rendering as `000`), joins the six segments with `/`, and
appends `-variant`/`-r{revision}` when given, so the spec §8 example holds;
invalid segments simply produce a key that `validate_atom_key` rejects,
which callers must check. -/
theorem build_atom_key_amended :
    (∀ n : Int, 0 ≤ n → n ≤ 999 → (format03d n).length = 3) ∧
      format03d 0 = "000" ∧
      build_atom_key "cli" "setup" "v1" "init" "all" 3 (some "linux") (some 1) =
        "cli/setup/v1/init/all/003-linux-r1" ∧
      build_atom_key "cli" "setup" "v1" "init" "all" 0 none none =
        "cli/setup/v1/init/all/000" ∧
      validate_atom_key (build_atom_key "cli" "setup" "v1" "init" "all" 0 none none) =
        true ∧
      validate_atom_key (build_atom_key "CLI" "setup" "v1" "init" "all" 3 none none) =
        false :=
  ⟨fun n h0 h1 => format03d_length h0 h1, by decide, by decide, by decide,
    by decide, by decide⟩

/-- Witness for the amended C4 theorem: the padding clause at sequence 7. -/
theorem build_atom_key_amended_witness : (format03d 7).length = 3 :=
  build_atom_key_amended.1 7 (by decide) (by decide)

/-- Claim C5, counterexample. The claim states `validate_ulid s` is true
*iff* `s` has length 26 over the crockford alphabet, rejecting any extra
character such as a trailing newline.  Python `re.match` with a `$` anchor
also matches just before a final newline, so a 27-character string ending
in `\n` is accepted. -/
theorem validate_ulid_trailing_newline_counterexample :
    validate_ulid "01ARZ3NDEKTSV4RRFFQ69G5FAV\n" = true ∧
      ("01ARZ3NDEKTSV4RRFFQ69G5FAV\n" : String).length ≠ 26 := by
  refine ⟨by decide, by decide⟩

/-- Claim C5, amended: `validate_ulid s` is true iff `s` is exactly 26
crockford-alphabet characters, *or* such a string followed by one trailing
newline (the Python `$` semantics); in particular lowercase strings and
strings of other core lengths are rejected, and the uppercase 26-character
form is accepted. -/
theorem validate_ulid_amended :
    (∀ s : String, validate_ulid s = true ↔
        (s.data.length = 26 ∧ ∀ c ∈ s.data, isCrockford c = true) ∨
          ∃ cs, s.data = cs ++ ['\n'] ∧ cs.length = 26 ∧
            ∀ c ∈ cs, isCrockford c = true) ∧
      validate_ulid "01ARZ3NDEKTSV4RRFFQ69G5FAV" = true ∧
      validate_ulid "01arz3ndektsv4rrffq69g5fav" = false ∧
      validate_ulid "01ARZ3NDEKTSV4RRFFQ69G5FA" = false ∧
      validate_ulid "01ARZ3NDEKTSV4RRFFQ69G5FAVX" = false :=
  ⟨validate_ulid_chars, by decide, by decide, by decide, by decide⟩

/-- Claim C6, counterexample. The claim states `validate_atom_key` accepts
no string outside the spec §3 grammar.  A grammatical key followed by a
trailing newline is outside the grammar (its last segment would contain a
newline) yet is accepted, again by the Python `$` semantics. -/
theorem validate_atom_key_trailing_newline_counterexample :
    validate_atom_key "cli/dev-setup/v1/init/all/001\n" = true ∧
      ¬ IsAtomKey ("cli/dev-setup/v1/init/all/001\n" : String).data :=
  ⟨by decide, fun h => absurd ((atomKeyCore_iff _).mpr h) (by decide)⟩

/-- Claim C6, amended: `validate_atom_key` accepts exactly the §3 grammar
strings, optionally followed by one trailing newline; in particular it
accepts the four positive spec examples and rejects the three negative
ones (uppercase namespace, missing `v` prefix, unpadded sequence). -/
theorem validate_atom_key_amended :
    (∀ s : String, validate_atom_key s = true ↔
        IsAtomKey s.data ∨ ∃ cs, s.data = cs ++ ['\n'] ∧ IsAtomKey cs) ∧
      validate_atom_key "cli/dev-setup/v1/init/all/001" = true ∧
      validate_atom_key "cli/dev-setup/v1/init/all/001-win" = true ∧
      validate_atom_key "cli/dev-setup/v1/init/all/001-r2" = true ∧
      validate_atom_key "cli/dev-setup/v1/init/all/001-win-r2" = true ∧
      validate_atom_key "CLI/dev-setup/v1/init/all/001" = false ∧
      validate_atom_key "cli/dev-setup/1/init/all/001" = false ∧
      validate_atom_key "cli/dev-setup/v1/init/all/1" = false :=
  ⟨validate_atom_key_chars, by decide, by decide, by decide, by decide,
    by decide, by decide, by decide⟩

/-- Claim C7 (confirmed): the validator returns the empty list exactly when
every declarative rule holds (`conformant`), and on the spec §8 example — a
record missing `title` whose `atom_uid` is `"invalid"` — it returns two
distinct error messages, one per violated rule, rather than stopping at the
first. -/
theorem validate_atom_conformance :
    (∀ a : Atom, validate_atom a = Except.ok [] ↔ conformant a = true) ∧
      validate_atom c7rec =
        Except.ok ["Invalid atom_uid format: invalid", "Missing required field: title"] ∧
      ("Invalid atom_uid format: invalid" : String) ≠ "Missing required field: title" :=
  ⟨validate_atom_ok_iff, rfl, by decide⟩

/-- Claim C8, counterexample. The claim states a structured `deps` entry
*must expose* a `uid` field that validates.  The source checks
`if 'uid' in dep and not validate_ulid(dep['uid'])`, so a dict *without* a
`uid` field produces no error: a fully valid record whose `deps` is
`[{}]` validates cleanly. -/
theorem deps_dict_without_uid_counterexample :
    c8recA.deps = some (Value.list [Value.dict []]) ∧
      lookupField [] "uid" = none ∧
      validate_atom c8recA = Except.ok [] :=
  ⟨rfl, rfl, rfl⟩

/-- Claim C8, amended: with `deps` present, a non-sequence value is an
error; each string element must validate as an identifier; a structured
entry is checked only when it exposes a `uid` field (present and invalid →
error tagged with the index; absent → accepted); any other shape is an
error tagged with its index. -/
theorem validate_atom_deps_amended :
    (∀ (l : List Value) (i : Nat),
        checkDepList i l = Except.ok [] ↔ l.all depOk = true) ∧
      checkDepsField (some (Value.int 3)) =
        Except.ok ["Field \x27deps\x27 must be a list"] ∧
      validate_atom c8recB = Except.ok ["Invalid dependency format at index 1"] ∧
      checkDep 0 (Value.dict [("uid", Value.str "bad")]) =
        Except.ok ["Invalid dependency ULID at index 0: bad"] ∧
      checkDep 0 (Value.dict []) = Except.ok [] :=
  ⟨checkDepList_ok_iff, rfl, rfl, rfl, rfl⟩

/-- Claim C9 (confirmed): `append_registry_entries` makes at most 100
exclusive-create attempts on the lock token, sleeping a fixed 0.05 s after
each failed attempt (one sleep per failed attempt, so sleeps + 1 = attempts
on success and sleeps = attempts = 100 on exhaustion); it acquires the lock
iff some of the first 100 attempts sees the token absent; and whether or
not acquisition succeeded it proceeds to append the entries — it never
retries forever, raises, or deadlocks. -/
theorem append_registry_entries_bounded_lock :
    ∀ (other : Nat → Bool) (lk : Bool) (reg : Option (List Line))
      (es : List RegistryEntry),
      (append_registry_entries other lk reg es).attempts ≤ lockMaxAttempts ∧
        (append_registry_entries other lk reg es).sleeps +
            (if (append_registry_entries other lk reg es).acquired then 1 else 0) =
          (append_registry_entries other lk reg es).attempts ∧
        ((append_registry_entries other lk reg es).acquired = true ↔
          ∃ j, j < lockMaxAttempts ∧ other j = false) ∧
        (append_registry_entries other lk reg es).registry =
          some (reg.getD [] ++ es.map Line.entry) ∧
        lockMaxAttempts = 100 ∧ lockRetrySleepCentis = 5 := by
  intro other lk reg es
  obtain ⟨ha, hs, hiff⟩ := acquireGo_spec other lockMaxAttempts 0
  refine ⟨?_, ?_, ?_, ?_, rfl, rfl⟩
  · simpa [append_registry_entries, acquireLoop] using ha
  · simpa [append_registry_entries, acquireLoop] using hs
  · simpa [append_registry_entries, acquireLoop] using hiff
  · simp [append_registry_entries]

/-- Claim C10 (confirmed): after every completed `append_registry_entries`
call the lock token does not exist — the `finally` block deletes the token
whenever it exists at cleanup, including on the fallback path where this
call exhausted all attempts and the token was created by another writer. -/
theorem append_registry_entries_lock_removed :
    ∀ (other : Nat → Bool) (lk : Bool) (reg : Option (List Line))
      (es : List RegistryEntry),
      (append_registry_entries other lk reg es).lockExists = false := by
  intro other lk reg es
  simp only [append_registry_entries]
  cases hb : (acquireLoop other).2.2 || lk <;> simp [hb]

end AtomicWorkflow
